import Mathlib

/-!
Shallow embedding of the graph-convolution refinement head of
FP-GCN/mmt/models/resnet_rdsbn_mdif.py (repository unsupervised_person_reid),
together with proofs of the specification claims about it.

Tensors are embedded as real matrices over Fin types; float arithmetic is
idealised as exact real arithmetic.  The convolutional backbone (lines
373-384 of the source) and the external DomainSpecificBatchNorm modules
(imported there from mmt.models.dsbn / mmt.models.rdsbn, outside the given
sources) are treated as collaborators: the backbone's pooled embedding is the
input of the embedded head, and each batch-norm module is an arbitrary
matrix-to-matrix function parameter, since no claim depends on their
internals.
-/

noncomputable section

open Finset
open scoped Matrix

/-- Embedding of torch.mm (dense matrix product), written entrywise exactly as
the source multiplies: row of X dot column of Y.  torch.spmm has the same
mathematical value. -/
def mm {a b c : ℕ} (X : Matrix (Fin a) (Fin b) ℝ) (Y : Matrix (Fin b) (Fin c) ℝ) :
    Matrix (Fin a) (Fin c) ℝ :=
  fun i j => ∑ k, X i k * Y k j

/-- Embedding of torch.nn.Linear(inF, outF, bias=False) as used for the two
classifiers: y = x Wᵀ with weight W of shape outF × inF. -/
def linearNB {n inF outF : ℕ} (W : Matrix (Fin outF) (Fin inF) ℝ)
    (x : Matrix (Fin n) (Fin inF) ℝ) : Matrix (Fin n) (Fin outF) ℝ :=
  fun i j => ∑ k, x i k * W j k

/-- Parameters of GraphConvolution(in_features, out_features, bias): a weight
matrix and an optional bias vector (source lines 27-37; bias is None when the
constructor flag is false). -/
structure GraphConvolution (inF outF : ℕ) where
  weight : Matrix (Fin inF) (Fin outF) ℝ
  bias : Option (Fin outF → ℝ)

/-- GraphConvolution.forward (source lines 46-52):
support = mm(input, weight); output = spmm(adj, support);
return output + bias when bias exists, output otherwise. -/
def GraphConvolution.forward {n inF outF : ℕ} (gc : GraphConvolution inF outF)
    (input : Matrix (Fin n) (Fin inF) ℝ) (adj : Matrix (Fin n) (Fin n) ℝ) :
    Matrix (Fin n) (Fin outF) ℝ :=
  let support := mm input gc.weight
  let output := mm adj support
  match gc.bias with
  | some b => fun i j => output i j + b j
  | none => output

/-- Embedding of nn.LeakyReLU(0.2) applied pointwise (torch: x for x ≥ 0,
slope * x otherwise). -/
def leakyRelu (slope : ℝ) (x : ℝ) : ℝ := if 0 ≤ x then x else slope * x

/-- Parameters of GCN_2ADJ(nfeat, nhid, nclass) (source lines 60-66): two
graph-convolution layers; the LeakyReLU slope 0.2 is fixed in forward. -/
structure GCN_2ADJ (nfeat nhid nclass : ℕ) where
  gc1 : GraphConvolution nfeat nhid
  gc2 : GraphConvolution nhid nclass

/-- GCN_2ADJ.forward (source lines 68-72): gc1 with adj_1, LeakyReLU(0.2),
gc2 with adj_2. -/
def GCN_2ADJ.forward {n nfeat nhid nclass : ℕ} (g : GCN_2ADJ nfeat nhid nclass)
    (x : Matrix (Fin n) (Fin nfeat) ℝ)
    (adj_1 adj_2 : Matrix (Fin n) (Fin n) ℝ) : Matrix (Fin n) (Fin nclass) ℝ :=
  let h1 := g.gc1.forward x adj_1
  let h2 : Matrix (Fin n) (Fin nhid) ℝ := fun i j => leakyRelu 0.2 (h1 i j)
  g.gc2.forward h2 adj_2

/-- Embedding of torch.pow(x, -0.5) on reals (real power with exponent -1/2). -/
def invSqrt (x : ℝ) : ℝ := x ^ (-(1 / 2) : ℝ)

/-- gen_adj (source lines 79-83 and identically 103-107):
D = diag(pow(A.sum(1), -0.5)); return matmul(matmul(A, D).t(), D). -/
def gen_adj {n : ℕ} (A : Matrix (Fin n) (Fin n) ℝ) : Matrix (Fin n) (Fin n) ℝ :=
  let D := Matrix.diagonal fun i => invSqrt (∑ j, A i j)
  ((A * D)ᵀ) * D

/-- Embedding of torch.eye(n). -/
def eyeAdj (n : ℕ) : Matrix (Fin n) (Fin n) ℝ :=
  fun i j => if i = j then 1 else 0

namespace ADJ_FirstLayer

/-- Pre-normalization adjacency of ADJ_FirstLayer.forward (source lines
88-89): adj = torch.eye(N + 4); adj[N:, N:] = 1.0.  The slice assignment is
embedded as a functional override of the identity matrix. -/
def preAdj (N : ℕ) : Matrix (Fin (N + 4)) (Fin (N + 4)) ℝ :=
  fun i j => if N ≤ i.val ∧ N ≤ j.val then 1 else eyeAdj (N + 4) i j

/-- ADJ_FirstLayer.forward (source lines 85-92): reads N from the input's
shape, builds the pre-normalization adjacency and returns gen_adj of it.
The feature values of x are never read (only its size). -/
def forward {N C : ℕ} (x : Matrix (Fin N) (Fin C) ℝ) :
    Matrix (Fin (N + 4)) (Fin (N + 4)) ℝ :=
  gen_adj (preAdj N)

end ADJ_FirstLayer

/-- State of the ADJ_AttCenter module (source lines 95-101): the
nn.Linear(2048, 1) attention (weight row attW and bias attB, with the feature
width generalised from the hardcoded 2048 to C) and the running_mean buffer
of shape 4 × C.  momentum is the fixed constant 0.9. -/
structure ADJ_AttCenter (C : ℕ) where
  attW : Fin C → ℝ
  attB : ℝ
  running_mean : Matrix (Fin 4) (Fin C) ℝ

namespace ADJ_AttCenter

/-- self.momentum = 0.9 (source line 101). -/
def momentum : ℝ := 0.9

/-- Attention scores: self.attention(x) (source line 114), one scalar per row
of x. -/
def attScore {N C : ℕ} (m : ADJ_AttCenter C) (x : Matrix (Fin N) (Fin C) ℝ) :
    Fin N → ℝ :=
  fun i => (∑ k, x i k * m.attW k) + m.attB

/-- Sum of f over the index slice [lo, hi) of Fin N, embedding the
row-slicing and dim 0 summation of the source. -/
def sliceSum {N : ℕ} (f : Fin N → ℝ) (lo hi : ℕ) : ℝ :=
  ∑ i, if lo ≤ i.val ∧ i.val < hi then f i else 0

/-- One attention-weighted center (source lines 117-125): over the row slice
[lo, hi), normalize the attention scores to sum to 1 and take the weighted
sum of the rows of x. -/
def qcenter {N C : ℕ} (m : ADJ_AttCenter C) (x : Matrix (Fin N) (Fin C) ℝ)
    (lo hi : ℕ) : Fin C → ℝ :=
  fun j => ∑ i, if lo ≤ i.val ∧ i.val < hi
    then x i j * (m.attScore x i / sliceSum (m.attScore x) lo hi) else 0

/-- The four per-quarter centers center0..center3 of the training branch
(source lines 122-125), with stride = N // 4; the fourth slice runs to the
end of x exactly as x[3 * stride:] does. -/
def quarterCenter {N C : ℕ} (m : ADJ_AttCenter C) (x : Matrix (Fin N) (Fin C) ℝ)
    (q : Fin 4) : Fin C → ℝ :=
  if q.val = 0 then m.qcenter x 0 (N / 4)
  else if q.val = 1 then m.qcenter x (N / 4) (2 * (N / 4))
  else if q.val = 2 then m.qcenter x (2 * (N / 4)) (3 * (N / 4))
  else m.qcenter x (3 * (N / 4)) N

/-- Pre-normalization adjacency of the training branch (source lines
137-151): eye(N + 4), then adj[N:, N:] = 1, then the four pairs of slice
assignments wiring quarter q to center node N + q.  The chain of overrides is
written with the last assignment of the source tested first (every
assignment writes 1, so the order is immaterial, but the embedding mirrors
last-write-wins).  The slices 3 * stride: of the last pair extend to the end
of the (N+4)-sized tensor exactly as in the source. -/
def trainPreAdj (N : ℕ) : Matrix (Fin (N + 4)) (Fin (N + 4)) ℝ :=
  fun i j =>
    if i.val = N + 3 ∧ 3 * (N / 4) ≤ j.val then 1
    else if 3 * (N / 4) ≤ i.val ∧ j.val = N + 3 then 1
    else if i.val = N + 2 ∧ 2 * (N / 4) ≤ j.val ∧ j.val < 3 * (N / 4) then 1
    else if 2 * (N / 4) ≤ i.val ∧ i.val < 3 * (N / 4) ∧ j.val = N + 2 then 1
    else if i.val = N + 1 ∧ N / 4 ≤ j.val ∧ j.val < 2 * (N / 4) then 1
    else if N / 4 ≤ i.val ∧ i.val < 2 * (N / 4) ∧ j.val = N + 1 then 1
    else if i.val = N ∧ j.val < N / 4 then 1
    else if i.val < N / 4 ∧ j.val = N then 1
    else if N ≤ i.val ∧ N ≤ j.val then 1
    else eyeAdj (N + 4) i j

/-- Pre-normalization adjacency of the inference branch (source lines
155-159): eye(N + 4), adj[N:, N:] = 1, adj[:N, N] = 1, adj[N, :N] = 1. -/
def inferPreAdj (N : ℕ) : Matrix (Fin (N + 4)) (Fin (N + 4)) ℝ :=
  fun i j =>
    if i.val = N ∧ j.val < N then 1
    else if i.val < N ∧ j.val = N then 1
    else if N ≤ i.val ∧ N ≤ j.val then 1
    else eyeAdj (N + 4) i j

/-- Result of one call of ADJ_AttCenter.forward: the concatenated feature
matrix x_new, the normalized adjacency, and the module state after the call
(the call mutates only the running_mean buffer, and only in training mode). -/
structure Out (N C : ℕ) where
  x_new : Matrix (Fin (N + 4)) (Fin C) ℝ
  adj : Matrix (Fin (N + 4)) (Fin (N + 4)) ℝ
  state : ADJ_AttCenter C

/-- ADJ_AttCenter.forward (source lines 109-162).  In training mode:
attention-weighted quarter centers, x_new = cat([x, center0..center3]),
running_mean updated in place per quarter by
running_mean = momentum * running_mean + (1 - momentum) * center, and the
quarter-wired adjacency.  In inference mode: x_new = cat([x, running_mean]),
the all-samples-to-one-connector adjacency, and no state change.  Both
branches return gen_adj of the built adjacency. -/
def forward {N C : ℕ} (training : Bool) (m : ADJ_AttCenter C)
    (x : Matrix (Fin N) (Fin C) ℝ) : Out N C :=
  if training then
    let cs := quarterCenter m x
    { x_new := fun i j =>
        if h : i.val < N then x ⟨i.val, h⟩ j else cs ⟨i.val - N, by omega⟩ j
      adj := gen_adj (trainPreAdj N)
      state := { m with running_mean := fun q j =>
        momentum * m.running_mean q j + (1 - momentum) * cs q j } }
  else
    { x_new := fun i j =>
        if h : i.val < N then x ⟨i.val, h⟩ j
        else m.running_mean ⟨i.val - N, by omega⟩ j
      adj := gen_adj (inferPreAdj N)
      state := m }

end ADJ_AttCenter

/-- Row-wise Euclidean norm, as used by F.normalize with p = 2, dim = 1. -/
def rowNorm {n c : ℕ} (M : Matrix (Fin n) (Fin c) ℝ) (i : Fin n) : ℝ :=
  Real.sqrt (∑ j, M i j ^ 2)

/-- Embedding of F.normalize(M) (p = 2, dim = 1) in exact arithmetic: each
row is divided by its Euclidean norm.  The library's eps clamp only guards
the all-zero row, which this embedding also maps to itself (division by zero
yields zero in ℝ). -/
def normalizeRows {n c : ℕ} (M : Matrix (Fin n) (Fin c) ℝ) :
    Matrix (Fin n) (Fin c) ℝ :=
  fun i j => M i j / rowNorm M i

/-- Embedding of F.relu applied pointwise. -/
def reluM {n c : ℕ} (M : Matrix (Fin n) (Fin c) ℝ) : Matrix (Fin n) (Fin c) ℝ :=
  fun i j => max 0 (M i j)

/-- The optional embedding projection self.feat of the plain branch: the
nn.Linear(out_planes, num_features) layer when has_embedding holds (weight
of shape F × C plus bias), and the missing layer (plain features fed to
feat_bn directly, so F = C) otherwise (source lines 343-349 and 401-404). -/
inductive PlainFeat (C : ℕ) : ℕ → Type where
  | embed {F : ℕ} (W : Matrix (Fin F) (Fin C) ℝ) (b : Fin F → ℝ) : PlainFeat C F
  | ident : PlainFeat C C

/-- Applying the optional embedding projection: self.feat(x) when the layer
exists, x itself otherwise. -/
def PlainFeat.apply {N C : ℕ} : {F : ℕ} → PlainFeat C F →
    Matrix (Fin N) (Fin C) ℝ → Matrix (Fin N) (Fin F) ℝ
  | _, .embed W b, x => fun i j => (∑ k, x i k * W j k) + b j
  | _, .ident, x => x

/-- self.has_embedding: whether the embedding projection exists. -/
def PlainFeat.isEmbed {C F : ℕ} : PlainFeat C F → Bool
  | .embed _ _ => true
  | .ident => false

/-- Return value of RDSBNResNet.forward: one, two or three tensors, each with
N rows. -/
inductive Tensors (N : ℕ) where
  | one : {m : ℕ} → Matrix (Fin N) (Fin m) ℝ → Tensors N
  | two : {m k : ℕ} → Matrix (Fin N) (Fin m) ℝ → Matrix (Fin N) (Fin k) ℝ →
      Tensors N
  | three : {m k l : ℕ} → Matrix (Fin N) (Fin m) ℝ →
      Matrix (Fin N) (Fin k) ℝ → Matrix (Fin N) (Fin l) ℝ → Tensors N

/-- The post-pooling head of RDSBNResNet (source lines 309-367), for a batch
of N samples: backbone width C (= out_planes, the source hardcodes the
matching width 2048 inside ADJ_AttCenter), plain-branch feature width F
(= num_features) and nc = num_classes.  gcn_bn and feat_bn are the external
DomainSpecificBatchNorm1d collaborators (already applied to the domain label
they route on), drop is the dropout collaborator applied when dropout > 0,
and the two classifiers are bias-free linear layers (weights only; the
source only ever applies them when num_classes > 0, and an nc = 0 weight
matrix is empty). -/
structure RDSBNResNet (N C F nc : ℕ) where
  gcn : GCN_2ADJ C C C
  adj_2 : ADJ_AttCenter C
  gcn_bn : Matrix (Fin N) (Fin C) ℝ → Matrix (Fin N) (Fin C) ℝ
  gcn_classifier : Matrix (Fin nc) (Fin C) ℝ
  feat : PlainFeat C F
  feat_bn : Matrix (Fin N) (Fin F) ℝ → Matrix (Fin N) (Fin F) ℝ
  norm : Bool
  dropoutOn : Bool
  drop : Matrix (Fin N) (Fin F) ℝ → Matrix (Fin N) (Fin F) ℝ
  classifier : Matrix (Fin nc) (Fin F) ℝ

namespace RDSBNResNet

/-- The fused graph-branch embedding x_gcn_bn (source lines 386-394):
adj_1 from ADJ_FirstLayer, (x_new, adj_2) from ADJ_AttCenter, gcn on the
augmented nodes, residual fusion of the first N rows of the gcn output with
x, then gcn_bn.  The .detach() calls on the adjacencies only cut gradients
and are mathematical no-ops. -/
def x_gcn_bn {N C F nc : ℕ} (md : RDSBNResNet N C F nc) (training : Bool)
    (x : Matrix (Fin N) (Fin C) ℝ) : Matrix (Fin N) (Fin C) ℝ :=
  let adj_1 := ADJ_FirstLayer.forward x
  let a2 := ADJ_AttCenter.forward training md.adj_2 x
  let gcn_feat := md.gcn.forward a2.x_new adj_1 a2.adj
  let x_gcn : Matrix (Fin N) (Fin C) ℝ :=
    fun i j => x i j + gcn_feat (Fin.castAdd 4 i) j
  md.gcn_bn x_gcn

/-- gcn_prob = self.gcn_classifier(x_gcn_bn) (source line 395). -/
def gcn_prob {N C F nc : ℕ} (md : RDSBNResNet N C F nc) (training : Bool)
    (x : Matrix (Fin N) (Fin C) ℝ) : Matrix (Fin N) (Fin nc) ℝ :=
  linearNB md.gcn_classifier (md.x_gcn_bn training x)

/-- The plain-branch embedding bn_x after the optional projection, feat_bn,
the norm / has_embedding relu alternative, and dropout (source lines
401-412). -/
def bn_x {N C F nc : ℕ} (md : RDSBNResNet N C F nc)
    (x : Matrix (Fin N) (Fin C) ℝ) : Matrix (Fin N) (Fin F) ℝ :=
  let b0 := md.feat_bn (md.feat.apply x)
  let b1 := if md.norm then normalizeRows b0
    else if md.feat.isEmbed then reluM b0 else b0
  if md.dropoutOn then md.drop b1 else b1

/-- RDSBNResNet.forward from the pooled embedding on (source lines 386-421).
Inference mode returns the single tensor F.normalize(x_gcn_bn); training
mode returns (x, bn_x) when no classifier exists, else (bn_x, prob) when
feature_withbn is set, else (x, prob, gcn_prob). -/
def forward {N C F nc : ℕ} (md : RDSBNResNet N C F nc)
    (training feature_withbn : Bool) (x : Matrix (Fin N) (Fin C) ℝ) :
    Tensors N :=
  if training = false then .one (normalizeRows (md.x_gcn_bn training x))
  else if 0 < nc then
    if feature_withbn then .two (md.bn_x x) (linearNB md.classifier (md.bn_x x))
    else .three x (linearNB md.classifier (md.bn_x x)) (md.gcn_prob training x)
  else .two x (md.bn_x x)

end RDSBNResNet

/-- A concrete 1-sample, width-1 head instance used to instantiate
hypothesis-bearing theorems at explicit inputs: all linear weights zero,
both batch-norm collaborators returning the all-ones matrix (gcn_bn) and
the identity (feat_bn), no embedding projection, no dropout. -/
def mdOne : RDSBNResNet 1 1 1 1 where
  gcn := ⟨⟨fun _ _ => 0, some fun _ => 0⟩, ⟨fun _ _ => 0, some fun _ => 0⟩⟩
  adj_2 := ⟨fun _ => 0, 0, fun _ _ => 0⟩
  gcn_bn := fun _ => fun _ _ => 1
  gcn_classifier := fun _ _ => 0
  feat := .ident
  feat_bn := id
  norm := false
  dropoutOn := false
  drop := id
  classifier := fun _ _ => 0

/-- The all-zero 1 × 1 input batch used by the witnesses. -/
def xOne : Matrix (Fin 1) (Fin 1) ℝ := fun _ _ => 0

/-! ## Helper lemmas -/

/-- Entrywise value of gen_adj: D^(-1/2) Aᵀ D^(-1/2) with D the row-sum
degrees, i.e. entry (i, j) is A j i scaled by the inverse square roots of
the row sums of rows i and j. -/
theorem gen_adj_apply {n : ℕ} (A : Matrix (Fin n) (Fin n) ℝ) (i j : Fin n) :
    gen_adj A i j
      = A j i * invSqrt (∑ k, A i k) * invSqrt (∑ k, A j k) := by
  simp only [gen_adj, Matrix.mul_diagonal, Matrix.transpose_apply]

/-- The pre-normalization first-layer adjacency is symmetric. -/
theorem ADJ_FirstLayer.preAdj_symm (N : ℕ) (i j : Fin (N + 4)) :
    ADJ_FirstLayer.preAdj N i j = ADJ_FirstLayer.preAdj N j i := by
  simp only [ADJ_FirstLayer.preAdj, eyeAdj, Fin.ext_iff]
  split_ifs <;> first | rfl | omega

/-- Entries of torch.eye(n) are nonnegative. -/
theorem eyeAdj_nonneg {n : ℕ} (i j : Fin n) : 0 ≤ eyeAdj n i j := by
  unfold eyeAdj
  split_ifs
  · exact zero_le_one
  · exact le_refl 0

/-- Diagonal of torch.eye(n) is 1. -/
theorem eyeAdj_diag {n : ℕ} (i : Fin n) : eyeAdj n i i = 1 := if_pos rfl

/-- Every entry of the first-layer pre-normalization adjacency is
nonnegative. -/
theorem ADJ_FirstLayer.preAdj_nonneg (N : ℕ) (i j : Fin (N + 4)) :
    0 ≤ ADJ_FirstLayer.preAdj N i j := by
  unfold ADJ_FirstLayer.preAdj
  split_ifs
  · exact zero_le_one
  · exact eyeAdj_nonneg i j

/-- Every entry of the training-mode pre-normalization adjacency is
nonnegative. -/
theorem ADJ_AttCenter.trainPreAdj_nonneg (N : ℕ) (i j : Fin (N + 4)) :
    0 ≤ ADJ_AttCenter.trainPreAdj N i j := by
  unfold ADJ_AttCenter.trainPreAdj
  split_ifs <;> first | exact zero_le_one | exact eyeAdj_nonneg i j

/-- Every entry of the inference-mode pre-normalization adjacency is
nonnegative. -/
theorem ADJ_AttCenter.inferPreAdj_nonneg (N : ℕ) (i j : Fin (N + 4)) :
    0 ≤ ADJ_AttCenter.inferPreAdj N i j := by
  unfold ADJ_AttCenter.inferPreAdj
  split_ifs <;> first | exact zero_le_one | exact eyeAdj_nonneg i j

/-- Diagonal of the first-layer pre-normalization adjacency is 1. -/
theorem ADJ_FirstLayer.preAdj_diag (N : ℕ) (i : Fin (N + 4)) :
    ADJ_FirstLayer.preAdj N i i = 1 := by
  unfold ADJ_FirstLayer.preAdj
  split_ifs
  · rfl
  · exact eyeAdj_diag i

/-- Diagonal of the training-mode pre-normalization adjacency is 1. -/
theorem ADJ_AttCenter.trainPreAdj_diag (N : ℕ) (i : Fin (N + 4)) :
    ADJ_AttCenter.trainPreAdj N i i = 1 := by
  unfold ADJ_AttCenter.trainPreAdj
  split_ifs <;> first | rfl | exact eyeAdj_diag i

/-- Diagonal of the inference-mode pre-normalization adjacency is 1. -/
theorem ADJ_AttCenter.inferPreAdj_diag (N : ℕ) (i : Fin (N + 4)) :
    ADJ_AttCenter.inferPreAdj N i i = 1 := by
  unfold ADJ_AttCenter.inferPreAdj
  split_ifs <;> first | rfl | exact eyeAdj_diag i

/-- A square matrix with unit diagonal and nonnegative entries has every row
sum at least 1. -/
theorem rowSum_ge_one {n : ℕ} (A : Matrix (Fin n) (Fin n) ℝ)
    (hdiag : ∀ i, A i i = 1) (hnn : ∀ i j, 0 ≤ A i j) (i : Fin n) :
    1 ≤ ∑ j, A i j := by
  have h := Finset.single_le_sum (f := fun j => A i j)
    (fun j _ => hnn i j) (Finset.mem_univ i)
  simpa [hdiag i] using h

/-- The degree factor pow(x, -0.5) is positive for positive x. -/
theorem invSqrt_pos {x : ℝ} (hx : 0 < x) : 0 < invSqrt x :=
  Real.rpow_pos_of_pos hx _

/-! ## Claim theorems -/

/-- C1: GraphConvolution.forward returns adjacency · (input · weight) + bias
when a bias parameter exists, and adjacency · (input · weight) when it does
not; the output is exactly this affine expression, so no nonlinearity is
applied inside the layer. -/
theorem GraphConvolution_forward_spec {n inF outF : ℕ}
    (W : Matrix (Fin inF) (Fin outF) ℝ) (b : Fin outF → ℝ)
    (input : Matrix (Fin n) (Fin inF) ℝ) (adj : Matrix (Fin n) (Fin n) ℝ) :
    (GraphConvolution.mk W (some b)).forward input adj
        = (fun i j => (adj * (input * W)) i j + b j)
      ∧ (GraphConvolution.mk W (none : Option (Fin outF → ℝ))).forward input adj
        = adj * (input * W) := by
  constructor <;>
  · funext i j
    simp [GraphConvolution.forward, mm, Matrix.mul_apply]

/-- C2: ADJ_FirstLayer.forward builds an (N+4)-node pre-normalization
adjacency whose 4 center nodes form an all-ones clique, whose centers carry
no edges to the N samples, and whose N samples are self-connected only
(identity block); the returned matrix is the symmetric normalization
D^(-1/2) Aᵀ D^(-1/2) of it, D being the diagonal of its row sums. -/
theorem ADJ_FirstLayer_forward_spec {N C : ℕ} (x : Matrix (Fin N) (Fin C) ℝ) :
    (∀ i j : Fin (N + 4),
        (N ≤ i.val → N ≤ j.val → ADJ_FirstLayer.preAdj N i j = 1)
        ∧ (i.val < N → N ≤ j.val → ADJ_FirstLayer.preAdj N i j = 0)
        ∧ (N ≤ i.val → j.val < N → ADJ_FirstLayer.preAdj N i j = 0)
        ∧ (i.val < N → j.val < N →
            ADJ_FirstLayer.preAdj N i j = if i = j then 1 else 0))
    ∧ ADJ_FirstLayer.forward x
        = Matrix.diagonal (fun i => invSqrt (∑ k, ADJ_FirstLayer.preAdj N i k))
            * (ADJ_FirstLayer.preAdj N)ᵀ
            * Matrix.diagonal
                (fun i => invSqrt (∑ k, ADJ_FirstLayer.preAdj N i k)) := by
  constructor
  · intro i j
    refine ⟨fun h1 h2 => ?_, fun h1 h2 => ?_, fun h1 h2 => ?_,
      fun h1 h2 => ?_⟩
    · simp only [ADJ_FirstLayer.preAdj]
      rw [if_pos ⟨h1, h2⟩]
    · have hne : i ≠ j := by
        intro h
        rw [h] at h1
        omega
      simp only [ADJ_FirstLayer.preAdj, eyeAdj]
      rw [if_neg (by omega : ¬(N ≤ i.val ∧ N ≤ j.val)), if_neg hne]
    · have hne : i ≠ j := by
        intro h
        rw [h] at h1
        omega
      simp only [ADJ_FirstLayer.preAdj, eyeAdj]
      rw [if_neg (by omega : ¬(N ≤ i.val ∧ N ≤ j.val)), if_neg hne]
    · simp only [ADJ_FirstLayer.preAdj, eyeAdj]
      rw [if_neg (by omega : ¬(N ≤ i.val ∧ N ≤ j.val))]
  · show gen_adj (ADJ_FirstLayer.preAdj N) = _
    show ((ADJ_FirstLayer.preAdj N
        * Matrix.diagonal fun i => invSqrt (∑ k, ADJ_FirstLayer.preAdj N i k))ᵀ)
        * Matrix.diagonal (fun i => invSqrt (∑ k, ADJ_FirstLayer.preAdj N i k))
        = _
    rw [Matrix.transpose_mul, Matrix.diagonal_transpose]

/-- Witness for C2, at N = 1 with the concrete zero input batch: the
instantiated hypotheses 1 ≤ i.val and 1 ≤ j.val hold at the center nodes
i = 1, j = 2, and the clique entry is 1 there. -/
theorem ADJ_FirstLayer_forward_spec_witness :
    (1 ≤ (1 : Fin 5).val) ∧ (1 ≤ (2 : Fin 5).val)
      ∧ ADJ_FirstLayer.preAdj 1 (1 : Fin 5) (2 : Fin 5) = 1 :=
  ⟨by decide, by decide,
    ((ADJ_FirstLayer_forward_spec xOne).1 1 2).1 (by decide) (by decide)⟩

/-- C8: every pre-normalization adjacency built by either builder
(ADJ_FirstLayer, and ADJ_AttCenter in both its training and inference
branches) has all diagonal entries equal to 1 and every row sum at least 1,
so the degree factor pow(row sum, -0.5) taken by gen_adj is a (finite)
strictly positive real for every node. -/
theorem preAdj_degree_safety (N : ℕ) :
    (∀ i : Fin (N + 4),
      ADJ_FirstLayer.preAdj N i i = 1
        ∧ ADJ_AttCenter.trainPreAdj N i i = 1
        ∧ ADJ_AttCenter.inferPreAdj N i i = 1)
    ∧ (∀ i : Fin (N + 4),
      1 ≤ ∑ j, ADJ_FirstLayer.preAdj N i j
        ∧ 1 ≤ ∑ j, ADJ_AttCenter.trainPreAdj N i j
        ∧ 1 ≤ ∑ j, ADJ_AttCenter.inferPreAdj N i j)
    ∧ (∀ i : Fin (N + 4),
      0 < invSqrt (∑ j, ADJ_FirstLayer.preAdj N i j)
        ∧ 0 < invSqrt (∑ j, ADJ_AttCenter.trainPreAdj N i j)
        ∧ 0 < invSqrt (∑ j, ADJ_AttCenter.inferPreAdj N i j)) := by
  refine ⟨fun i => ⟨ADJ_FirstLayer.preAdj_diag N i,
      ADJ_AttCenter.trainPreAdj_diag N i, ADJ_AttCenter.inferPreAdj_diag N i⟩,
    fun i => ⟨?_, ?_, ?_⟩, fun i => ⟨?_, ?_, ?_⟩⟩
  · exact rowSum_ge_one _ (ADJ_FirstLayer.preAdj_diag N)
      (ADJ_FirstLayer.preAdj_nonneg N) i
  · exact rowSum_ge_one _ (ADJ_AttCenter.trainPreAdj_diag N)
      (ADJ_AttCenter.trainPreAdj_nonneg N) i
  · exact rowSum_ge_one _ (ADJ_AttCenter.inferPreAdj_diag N)
      (ADJ_AttCenter.inferPreAdj_nonneg N) i
  · exact invSqrt_pos (lt_of_lt_of_le one_pos (rowSum_ge_one _
      (ADJ_FirstLayer.preAdj_diag N) (ADJ_FirstLayer.preAdj_nonneg N) i))
  · exact invSqrt_pos (lt_of_lt_of_le one_pos (rowSum_ge_one _
      (ADJ_AttCenter.trainPreAdj_diag N) (ADJ_AttCenter.trainPreAdj_nonneg N) i))
  · exact invSqrt_pos (lt_of_lt_of_le one_pos (rowSum_ge_one _
      (ADJ_AttCenter.inferPreAdj_diag N) (ADJ_AttCenter.inferPreAdj_nonneg N) i))

/-- C9: the normalized adjacency returned by ADJ_FirstLayer.forward equals
its own transpose (exact arithmetic). -/
theorem ADJ_FirstLayer_forward_symmetric {N C : ℕ}
    (x : Matrix (Fin N) (Fin C) ℝ) :
    (ADJ_FirstLayer.forward x)ᵀ = ADJ_FirstLayer.forward x := by
  funext i j
  simp only [Matrix.transpose_apply]
  show gen_adj (ADJ_FirstLayer.preAdj N) j i = gen_adj (ADJ_FirstLayer.preAdj N) i j
  rw [gen_adj_apply, gen_adj_apply, ADJ_FirstLayer.preAdj_symm N i j]
  ring

/-- C10: ADJ_FirstLayer.forward reads only the row count of its input: any
two inputs with the same number of rows (and arbitrary feature values, even
of different widths) produce identical adjacency matrices. -/
theorem ADJ_FirstLayer_forward_input_independent {N C₁ C₂ : ℕ}
    (x : Matrix (Fin N) (Fin C₁) ℝ) (y : Matrix (Fin N) (Fin C₂) ℝ) :
    ADJ_FirstLayer.forward x = ADJ_FirstLayer.forward y := rfl

/-- C4: in inference mode, ADJ_AttCenter.forward returns features equal to
the input concatenated with the 4 rows of the running_mean buffer (no
attention computation enters them), builds the adjacency in which every
sample connects bidirectionally to the single connector node N (plus
self-loops on all N+4 nodes and the clique among the centers), and leaves
the module state, in particular the running_mean buffer, unmodified. -/
theorem ADJ_AttCenter_inference_spec {N C : ℕ} (m : ADJ_AttCenter C)
    (x : Matrix (Fin N) (Fin C) ℝ) :
    (∀ (i : Fin N) (j : Fin C),
        (ADJ_AttCenter.forward false m x).x_new (Fin.castAdd 4 i) j = x i j)
    ∧ (∀ (q : Fin 4) (j : Fin C),
        (ADJ_AttCenter.forward false m x).x_new ⟨N + q.val, by omega⟩ j
          = m.running_mean q j)
    ∧ (ADJ_AttCenter.forward false m x).adj
        = gen_adj (ADJ_AttCenter.inferPreAdj N)
    ∧ (∀ i j : Fin (N + 4),
        ADJ_AttCenter.inferPreAdj N i j =
          if i = j ∨ (N ≤ i.val ∧ N ≤ j.val) ∨ (i.val < N ∧ j.val = N)
              ∨ (j.val < N ∧ i.val = N) then 1 else 0)
    ∧ (ADJ_AttCenter.forward false m x).state = m := by
  refine ⟨fun i j => ?_, fun q j => ?_, rfl, fun i j => ?_, rfl⟩
  · simp [ADJ_AttCenter.forward]
  · have hn : ¬(N + q.val < N) := by omega
    simp [ADJ_AttCenter.forward, hn]
  · simp only [ADJ_AttCenter.inferPreAdj, eyeAdj, Fin.ext_iff]
    split_ifs <;> first | rfl | omega

/-- C5: after one training-mode call of ADJ_AttCenter.forward, row q of the
running_mean buffer equals momentum * old_row_q + (1 - momentum) * center_q,
where center_q is the attention-weighted center computed for quarter q in
that call and momentum = 0.9; the buffer is the only module state mutated
(the attention parameters are unchanged). -/
theorem ADJ_AttCenter_running_mean_update {N C : ℕ} (m : ADJ_AttCenter C)
    (x : Matrix (Fin N) (Fin C) ℝ) :
    (∀ (q : Fin 4) (j : Fin C),
      ((ADJ_AttCenter.forward true m x).state).running_mean q j
        = ADJ_AttCenter.momentum * m.running_mean q j
          + (1 - ADJ_AttCenter.momentum) * ADJ_AttCenter.quarterCenter m x q j)
    ∧ ADJ_AttCenter.momentum = 9 / 10
    ∧ ((ADJ_AttCenter.forward true m x).state).attW = m.attW
    ∧ ((ADJ_AttCenter.forward true m x).state).attB = m.attB := by
  exact ⟨fun q j => rfl, by norm_num [ADJ_AttCenter.momentum], rfl, rfl⟩

/-- Folding one step of an if-chain whose first two branches return the
same value into a single if with a disjunctive condition. -/
theorem ite_or_fold {α : Type} (p q : Prop) [Decidable p] [Decidable q]
    (a b : α) :
    (if p then a else if q then a else b) = if p ∨ q then a else b := by
  by_cases hp : p
  · simp [hp]
  · by_cases hq : q
    · simp [hp, hq]
    · simp [hp, hq]

/-- C3: in training mode with N divisible by 4 (quarters being the 4
contiguous blocks of N / 4 rows), the pre-normalization adjacency built by
ADJ_AttCenter.forward has self-loops on all N+4 nodes, an all-ones clique
among the 4 center nodes, and for each quarter exactly the bidirectional
edges between its samples and its own center node N + quarter — no sample
connects to another quarter's center or to another sample. -/
theorem ADJ_AttCenter_train_adj_spec {N C : ℕ} (h4 : N % 4 = 0)
    (m : ADJ_AttCenter C) (x : Matrix (Fin N) (Fin C) ℝ) :
    (ADJ_AttCenter.forward true m x).adj
        = gen_adj (ADJ_AttCenter.trainPreAdj N)
      ∧ ∀ i j : Fin (N + 4),
        ADJ_AttCenter.trainPreAdj N i j =
          if i = j ∨ (N ≤ i.val ∧ N ≤ j.val)
              ∨ (i.val < N ∧ j.val = N + i.val / (N / 4))
              ∨ (j.val < N ∧ i.val = N + j.val / (N / 4)) then 1 else 0 := by
  constructor
  · rfl
  · intro i j
    have hN : 4 * (N / 4) = N := Nat.mul_div_cancel' (Nat.dvd_of_mod_eq_zero h4)
    simp only [ADJ_AttCenter.trainPreAdj, eyeAdj]
    rw [ite_or_fold, ite_or_fold, ite_or_fold, ite_or_fold, ite_or_fold,
      ite_or_fold, ite_or_fold, ite_or_fold, ite_or_fold]
    simp only [or_assoc]
    refine if_congr ?_ rfl rfl
    constructor
    · rintro (h | h | h | h | h | h | h | h | h | h)
      · by_cases hj : N ≤ j.val
        · exact Or.inr (Or.inl ⟨by omega, hj⟩)
        · have hd : j.val / (N / 4) = 3 := Nat.div_eq_of_lt_le (by omega) (by omega)
          refine Or.inr (Or.inr (Or.inr ⟨by omega, ?_⟩))
          rw [hd]
          omega
      · by_cases hi : N ≤ i.val
        · exact Or.inr (Or.inl ⟨hi, by omega⟩)
        · have hd : i.val / (N / 4) = 3 := Nat.div_eq_of_lt_le (by omega) (by omega)
          refine Or.inr (Or.inr (Or.inl ⟨by omega, ?_⟩))
          rw [hd]
          omega
      · have hd : j.val / (N / 4) = 2 := Nat.div_eq_of_lt_le (by omega) (by omega)
        refine Or.inr (Or.inr (Or.inr ⟨by omega, ?_⟩))
        rw [hd]
        omega
      · have hd : i.val / (N / 4) = 2 := Nat.div_eq_of_lt_le (by omega) (by omega)
        refine Or.inr (Or.inr (Or.inl ⟨by omega, ?_⟩))
        rw [hd]
        omega
      · have hd : j.val / (N / 4) = 1 := Nat.div_eq_of_lt_le (by omega) (by omega)
        refine Or.inr (Or.inr (Or.inr ⟨by omega, ?_⟩))
        rw [hd]
        omega
      · have hd : i.val / (N / 4) = 1 := Nat.div_eq_of_lt_le (by omega) (by omega)
        refine Or.inr (Or.inr (Or.inl ⟨by omega, ?_⟩))
        rw [hd]
        omega
      · have hd : j.val / (N / 4) = 0 := Nat.div_eq_of_lt h.2
        refine Or.inr (Or.inr (Or.inr ⟨by omega, ?_⟩))
        rw [hd]
        omega
      · have hd : i.val / (N / 4) = 0 := Nat.div_eq_of_lt h.1
        refine Or.inr (Or.inr (Or.inl ⟨by omega, ?_⟩))
        rw [hd]
        omega
      · exact Or.inr (Or.inl h)
      · exact Or.inl h
    · rintro (h | h | h | h)
      · exact Or.inr (Or.inr (Or.inr (Or.inr (Or.inr (Or.inr (Or.inr
          (Or.inr (Or.inr h))))))))
      · exact Or.inr (Or.inr (Or.inr (Or.inr (Or.inr (Or.inr (Or.inr
          (Or.inr (Or.inl h))))))))
      · obtain ⟨hi, hj⟩ := h
        have hs : 0 < N / 4 := by omega
        have hq : i.val / (N / 4) < 4 := (Nat.div_lt_iff_lt_mul hs).mpr (by omega)
        have hdm : N / 4 * (i.val / (N / 4)) + i.val % (N / 4) = i.val :=
          Nat.div_add_mod i.val (N / 4)
        have hm : i.val % (N / 4) < N / 4 := Nat.mod_lt _ hs
        obtain ⟨q, hq_eq⟩ : ∃ q, i.val / (N / 4) = q := ⟨_, rfl⟩
        rw [hq_eq] at hq hdm hj
        have hq4 : q = 0 ∨ q = 1 ∨ q = 2 ∨ q = 3 := by omega
        rcases hq4 with rfl | rfl | rfl | rfl
        · exact Or.inr (Or.inr (Or.inr (Or.inr (Or.inr (Or.inr (Or.inr
            (Or.inl ⟨by omega, by omega⟩)))))))
        · exact Or.inr (Or.inr (Or.inr (Or.inr (Or.inr (Or.inl
            ⟨by omega, by omega, by omega⟩)))))
        · exact Or.inr (Or.inr (Or.inr (Or.inl ⟨by omega, by omega, by omega⟩)))
        · exact Or.inr (Or.inl ⟨by omega, by omega⟩)
      · obtain ⟨hj, hi⟩ := h
        have hs : 0 < N / 4 := by omega
        have hq : j.val / (N / 4) < 4 := (Nat.div_lt_iff_lt_mul hs).mpr (by omega)
        have hdm : N / 4 * (j.val / (N / 4)) + j.val % (N / 4) = j.val :=
          Nat.div_add_mod j.val (N / 4)
        have hm : j.val % (N / 4) < N / 4 := Nat.mod_lt _ hs
        obtain ⟨q, hq_eq⟩ : ∃ q, j.val / (N / 4) = q := ⟨_, rfl⟩
        rw [hq_eq] at hq hdm hi
        have hq4 : q = 0 ∨ q = 1 ∨ q = 2 ∨ q = 3 := by omega
        rcases hq4 with rfl | rfl | rfl | rfl
        · exact Or.inr (Or.inr (Or.inr (Or.inr (Or.inr (Or.inr (Or.inl
            ⟨by omega, by omega⟩))))))
        · exact Or.inr (Or.inr (Or.inr (Or.inr (Or.inl
            ⟨by omega, by omega, by omega⟩))))
        · exact Or.inr (Or.inr (Or.inl ⟨by omega, by omega, by omega⟩))
        · exact Or.inl ⟨by omega, by omega⟩

/-- Witness for C3 at N = 8 (stride 2), a width-1 module with zero
parameters and the zero input batch: 8 % 4 = 0 holds, and the wiring entry
of sample 0 to its own quarter's center node 8 is 1. -/
theorem ADJ_AttCenter_train_adj_spec_witness :
    8 % 4 = 0
      ∧ ADJ_AttCenter.trainPreAdj 8 (0 : Fin 12) (8 : Fin 12) = 1 := by
  refine ⟨by norm_num, ?_⟩
  have h := (ADJ_AttCenter_train_adj_spec (N := 8) (C := 1) (by norm_num)
    ⟨fun _ => 0, 0, fun _ _ => 0⟩ (fun _ _ => (0 : ℝ))).2 (0 : Fin 12) (8 : Fin 12)
  rw [h]
  exact if_pos (by decide)

/-- A row with a nonzero entry is mapped by row normalization to a row of
unit Euclidean norm (sum of squares 1). -/
theorem normalizeRows_unit {n c : ℕ} (M : Matrix (Fin n) (Fin c) ℝ) (i : Fin n)
    (h : ∃ j, M i j ≠ 0) : ∑ j, (normalizeRows M i j) ^ 2 = 1 := by
  obtain ⟨j0, hj0⟩ := h
  have hs : 0 < ∑ j, M i j ^ 2 := by
    refine Finset.sum_pos' (fun j _ => sq_nonneg _) ⟨j0, Finset.mem_univ _, ?_⟩
    exact (sq_nonneg _).lt_of_ne (Ne.symm (pow_ne_zero 2 hj0))
  have hroot : rowNorm M i ^ 2 = ∑ j, M i j ^ 2 := Real.sq_sqrt hs.le
  simp only [normalizeRows, div_pow]
  rw [← Finset.sum_div, hroot]
  exact div_self hs.ne'

/-- C6: in inference mode, RDSBNResNet.forward returns exactly one tensor —
the L2-normalized fused graph-branch embedding (no logits and no raw plain
embedding are returned) — and every row of it whose pre-normalization row is
nonzero has unit Euclidean norm (sum of squares 1) regardless of the input's
magnitude. -/
theorem RDSBNResNet_inference_spec {N C F nc : ℕ} (md : RDSBNResNet N C F nc)
    (fwb : Bool) (x : Matrix (Fin N) (Fin C) ℝ) :
    md.forward false fwb x = .one (normalizeRows (md.x_gcn_bn false x))
      ∧ ∀ i : Fin N, (∃ j, md.x_gcn_bn false x i j ≠ 0) →
          ∑ j, (normalizeRows (md.x_gcn_bn false x) i j) ^ 2 = 1 :=
  ⟨rfl, fun i hi => normalizeRows_unit _ i hi⟩

/-- Witness for C6 with the concrete head mdOne and the zero input batch:
row 0 of the pre-normalization embedding is nonzero (its gcn_bn collaborator
returns the all-ones matrix), and the normalized row has unit sum of
squares. -/
theorem RDSBNResNet_inference_spec_witness :
    (∃ j, mdOne.x_gcn_bn false xOne (0 : Fin 1) j ≠ 0)
      ∧ ∑ j, (normalizeRows (mdOne.x_gcn_bn false xOne) (0 : Fin 1) j) ^ 2
          = 1 := by
  have hx : ∃ j, mdOne.x_gcn_bn false xOne (0 : Fin 1) j ≠ 0 := by
    refine ⟨0, ?_⟩
    show (1 : ℝ) ≠ 0
    norm_num
  exact ⟨hx, (RDSBNResNet_inference_spec mdOne false xOne).2 0 hx⟩

/-- C7: in training mode, RDSBNResNet.forward returns the pair
(raw embedding, plain-branch embedding) when no classifier exists
(num_classes = 0); otherwise the pair (plain-branch embedding, plain logits)
when feature_withbn is set, and the triple
(raw embedding, plain logits, graph logits) when it is not. -/
theorem RDSBNResNet_training_spec {N C F nc : ℕ} (md : RDSBNResNet N C F nc)
    (x : Matrix (Fin N) (Fin C) ℝ) :
    (nc = 0 → ∀ fwb : Bool, md.forward true fwb x = .two x (md.bn_x x))
      ∧ (0 < nc → md.forward true true x
          = .two (md.bn_x x) (linearNB md.classifier (md.bn_x x)))
      ∧ (0 < nc → md.forward true false x
          = .three x (linearNB md.classifier (md.bn_x x))
              (md.gcn_prob true x)) := by
  refine ⟨fun h0 fwb => ?_, fun hpos => ?_, fun hpos => ?_⟩
  · subst h0
    rfl
  · unfold RDSBNResNet.forward
    rw [if_neg (by decide : ¬((true : Bool) = false)), if_pos hpos,
      if_pos (rfl : (true : Bool) = true)]
  · unfold RDSBNResNet.forward
    rw [if_neg (by decide : ¬((true : Bool) = false)), if_pos hpos,
      if_neg (by decide : ¬((false : Bool) = true))]

/-- Witness for C7 with the concrete head mdOne (num_classes = 1) and the
zero input batch, exercising both classifier-present branches with the
hypothesis 0 < 1 discharged. -/
theorem RDSBNResNet_training_spec_witness :
    mdOne.forward true true xOne
        = .two (mdOne.bn_x xOne) (linearNB mdOne.classifier (mdOne.bn_x xOne))
      ∧ mdOne.forward true false xOne
        = .three xOne (linearNB mdOne.classifier (mdOne.bn_x xOne))
            (mdOne.gcn_prob true xOne) :=
  ⟨(RDSBNResNet_training_spec mdOne xOne).2.1 (by norm_num),
   (RDSBNResNet_training_spec mdOne xOne).2.2 (by norm_num)⟩
